import Mathlib

/-!
# Verification of the RESP codec and command engine

A shallow embedding, in Lean, of the Rust sources `src/resp.rs`,
`src/engine.rs` and `src/main.rs` of a small Redis-like server, together
with proofs and refutations of the specification's claims about it.

Bytes are modelled as `Nat` (values 0..255 in practice); byte vectors as
`List Nat`.  The monotonic clock (`std::time::Instant`) is modelled as a
`Nat` timestamp in milliseconds and `Duration` as a `Nat` number of
milliseconds.  Machine-integer overflow of the source's `i64`/`u64`
accumulation loops is outside every claim considered here, so those
accumulators are modelled with unbounded `Int`/`Nat`; the range checks
that Rust's `str::parse::<u32>` and `str::parse::<i64>` perform are
modelled explicitly, since decodability does depend on them.
-/

namespace Redis

/-- The `Object` enum of `engine.rs`.  The Rust `Array` variant wraps an
`ObjectArray { items: Vec<Object> }`; the wrapper carries no information
beyond its `items`, so the constructor here takes the item list directly.
`Integer` is `i64` in Rust, modelled as `Int`. -/
inductive Object where
  | Array : List Object → Object
  | BulkString : Option (List Nat) → Object
  | Error : List Nat → Object
  | Integer : Int → Object
  | SimpleString : List Nat → Object
deriving Repr

mutual

/-- Structural decidable equality on `Object` (the Rust type derives
`PartialEq`/`Eq`/`Hash` structurally). -/
def decEqObject : (a b : Object) → Decidable (a = b)
  | Object.Array as, Object.Array bs =>
      match decEqObjectList as bs with
      | isTrue h => isTrue (by rw [h])
      | isFalse h => isFalse (by intro hh; injection hh; contradiction)
  | Object.BulkString a, Object.BulkString b =>
      if h : a = b then isTrue (by rw [h])
      else isFalse (by intro hh; injection hh; contradiction)
  | Object.Error a, Object.Error b =>
      if h : a = b then isTrue (by rw [h])
      else isFalse (by intro hh; injection hh; contradiction)
  | Object.Integer a, Object.Integer b =>
      if h : a = b then isTrue (by rw [h])
      else isFalse (by intro hh; injection hh; contradiction)
  | Object.SimpleString a, Object.SimpleString b =>
      if h : a = b then isTrue (by rw [h])
      else isFalse (by intro hh; injection hh; contradiction)
  | Object.Array _, Object.BulkString _ => isFalse (fun h => Object.noConfusion h)
  | Object.Array _, Object.Error _ => isFalse (fun h => Object.noConfusion h)
  | Object.Array _, Object.Integer _ => isFalse (fun h => Object.noConfusion h)
  | Object.Array _, Object.SimpleString _ => isFalse (fun h => Object.noConfusion h)
  | Object.BulkString _, Object.Array _ => isFalse (fun h => Object.noConfusion h)
  | Object.BulkString _, Object.Error _ => isFalse (fun h => Object.noConfusion h)
  | Object.BulkString _, Object.Integer _ => isFalse (fun h => Object.noConfusion h)
  | Object.BulkString _, Object.SimpleString _ => isFalse (fun h => Object.noConfusion h)
  | Object.Error _, Object.Array _ => isFalse (fun h => Object.noConfusion h)
  | Object.Error _, Object.BulkString _ => isFalse (fun h => Object.noConfusion h)
  | Object.Error _, Object.Integer _ => isFalse (fun h => Object.noConfusion h)
  | Object.Error _, Object.SimpleString _ => isFalse (fun h => Object.noConfusion h)
  | Object.Integer _, Object.Array _ => isFalse (fun h => Object.noConfusion h)
  | Object.Integer _, Object.BulkString _ => isFalse (fun h => Object.noConfusion h)
  | Object.Integer _, Object.Error _ => isFalse (fun h => Object.noConfusion h)
  | Object.Integer _, Object.SimpleString _ => isFalse (fun h => Object.noConfusion h)
  | Object.SimpleString _, Object.Array _ => isFalse (fun h => Object.noConfusion h)
  | Object.SimpleString _, Object.BulkString _ => isFalse (fun h => Object.noConfusion h)
  | Object.SimpleString _, Object.Error _ => isFalse (fun h => Object.noConfusion h)
  | Object.SimpleString _, Object.Integer _ => isFalse (fun h => Object.noConfusion h)

/-- Decidable equality on lists of `Object`s. -/
def decEqObjectList : (as bs : List Object) → Decidable (as = bs)
  | [], [] => isTrue rfl
  | a :: as, b :: bs =>
      match decEqObject a b, decEqObjectList as bs with
      | isTrue h1, isTrue h2 => isTrue (by rw [h1, h2])
      | isFalse h1, _ => isFalse (by intro hh; injection hh; contradiction)
      | _, isFalse h2 => isFalse (by intro hh; injection hh; contradiction)
  | [], _ :: _ => isFalse (fun h => List.noConfusion h)
  | _ :: _, [] => isFalse (fun h => List.noConfusion h)

end

instance : DecidableEq Object := decEqObject

/-- ASCII bytes of a Lean string literal (all our literals are ASCII). -/
def strBytes (s : String) : List Nat :=
  s.data.map Char.toNat

/-- `Object::new_error` of `engine.rs`. -/
def Object.new_error (msg : String) : Object :=
  Object.Error (strBytes msg)

/-- `Object::new_simple_string` of `engine.rs`. -/
def Object.new_simple_string (s : String) : Object :=
  Object.SimpleString (strBytes s)

/-- `Object::new_empty_array` of `engine.rs`. -/
def Object.new_empty_array : Object :=
  Object.Array []

/-! ## Decimal digits

`write!` formatting of a nonnegative integer, and the digit-string
reading/parsing used by the decoder. -/

/-- Decimal digits of `n`, most significant first, accumulator form. -/
def natToDigitsAux : Nat → List Nat → List Nat
  | 0, acc => acc
  | n + 1, acc => natToDigitsAux ((n + 1) / 10) ((n + 1) % 10 :: acc)

/-- Decimal digits of `n`, most significant first; `[0]` for `0`. -/
def natToDigits (n : Nat) : List Nat :=
  if n = 0 then [0] else natToDigitsAux n []

/-- ASCII bytes of the decimal rendering of `n` (as `write!("{n}")`). -/
def natBytes (n : Nat) : List Nat :=
  (natToDigits n).map (· + 48)

/-- ASCII bytes of the decimal rendering of an `i64` (as `write!("{i}")`):
a leading `-` for negative values, then the digits of the magnitude. -/
def intBytes (i : Int) : List Nat :=
  if i < 0 then 45 :: natBytes i.natAbs else natBytes i.toNat

/-- `is_digit` of `resp.rs`: ASCII `'0'..='9'`. -/
def is_digit (b : Nat) : Bool :=
  48 ≤ b && b ≤ 57

/-- Numeric value of a digit-byte string, as Rust's `parse` accumulates
it: `acc * 10 + digit` left to right. -/
def digitsVal (s : List Nat) : Nat :=
  s.foldl (fun acc b => 10 * acc + (b - 48)) 0

/-! ## The serializer (`serialize` of `resp.rs`)

The Rust function writes to an `io::Write` sink; here it returns the list
of bytes written.  Byte constants: `*` 42, `:` 58, `$` 36, `-` 45, `+` 43,
`\r` 13, `\n` 10, `1` 49. -/

mutual

/-- `serialize` of `resp.rs`, as the byte list written to the stream. -/
def serialize : Object → List Nat
  | Object.Array items =>
      42 :: natBytes items.length ++ [13, 10] ++ serializeList items
  | Object.Integer i => 58 :: intBytes i ++ [13, 10]
  | Object.BulkString (some s) =>
      36 :: natBytes s.length ++ [13, 10] ++ s ++ [13, 10]
  | Object.BulkString none => [36, 45, 49, 13, 10]
  | Object.Error msg => 45 :: msg ++ [13, 10]
  | Object.SimpleString s => 43 :: s ++ [13, 10]

/-- The serializer's loop over an array's elements. -/
def serializeList : List Object → List Nat
  | [] => []
  | o :: rest => serialize o ++ serializeList rest

end

/-! ## The decoder (`resp.rs`)

The Rust decoder pulls single bytes through `ReadState::current` /
`ReadState::advance` from an `io::Read` stream.  Over a fixed byte
sequence this is exactly left-to-right consumption of a `List Nat`:
`current` is the head (`none` once the stream is exhausted and closed),
`advance` drops it.  Each function below returns the decoding result
together with the unconsumed remainder of the input.  The nested
recursion into array elements is bounded by an explicit `fuel`
parameter, a bound on the nesting depth of the decoded object (the Rust
code recurses on the call stack instead). -/

namespace resp

/-- `read_digits` of `resp.rs`: the longest digit prefix, and the rest. -/
def read_digits : List Nat → List Nat × List Nat
  | [] => ([], [])
  | b :: rest =>
      if is_digit b then
        let (ds, r) := read_digits rest
        (b :: ds, r)
      else ([], b :: rest)

/-- `parse_u32` of `resp.rs`: Rust's `str::parse::<u32>` on a digit
string succeeds exactly on a nonempty all-digit string whose value fits
in an unsigned 32-bit integer. -/
def parse_u32 (s : List Nat) : Option Nat :=
  if s = [] then none
  else if s.all (fun b => is_digit b) && digitsVal s < 2 ^ 32 then
    some (digitsVal s)
  else none

/-- `parse_i64` of `resp.rs`: `str::parse::<i64>` on the (sign-free)
digit strings produced by `read_digits` succeeds exactly on a nonempty
all-digit string whose value is at most `i64::MAX`. -/
def parse_i64 (s : List Nat) : Option Int :=
  if s = [] then none
  else if s.all (fun b => is_digit b) && digitsVal s ≤ 2 ^ 63 - 1 then
    some ((digitsVal s : Nat) : Int)
  else none

/-- `expect` of `resp.rs`. -/
def expect (expected : Nat) : List Nat → Except String (List Nat)
  | b :: rest =>
      if b = expected then Except.ok rest
      else Except.error "expected byte mismatch"
  | [] => Except.error "expected byte but reached end of input"

/-- `expect_delimiter` of `resp.rs`: consume `\r\n`. -/
def expect_delimiter (input : List Nat) : Except String (List Nat) :=
  match expect 13 input with
  | Except.ok rest => expect 10 rest
  | Except.error e => Except.error e

/-- The byte-by-byte body loop of `deserialize_bulk_string`: read
exactly `n` bytes, failing if the input runs out. -/
def read_body : Nat → List Nat → Except String (List Nat × List Nat)
  | 0, rest => Except.ok ([], rest)
  | _ + 1, [] => Except.error "unexpected end of input while reading bulk string"
  | n + 1, b :: rest =>
      match read_body n rest with
      | Except.ok (s, r) => Except.ok (b :: s, r)
      | Except.error e => Except.error e

/-- `deserialize_integer` of `resp.rs`: `:`, optional sign, digits,
`\r\n`. -/
def deserialize_integer (input : List Nat) : Except String (Object × List Nat) :=
  match input with
  | 58 :: rest =>
      let sr : Option Nat × List Nat :=
        match rest with
        | c :: r => if c = 43 || c = 45 then (some c, r) else (none, c :: r)
        | [] => (none, [])
      let (ds, rest1) := read_digits sr.2
      match expect_delimiter rest1 with
      | Except.error e => Except.error e
      | Except.ok rest2 =>
          match parse_i64 ds with
          | none => Except.error "couldn't parse as a signed 64 bit integer"
          | some v =>
              Except.ok (Object.Integer (if sr.1 = some 45 then -v else v), rest2)
  | _ => Except.error "assertion failed: expected a colon"

/-- `deserialize_bulk_string` of `resp.rs`: `$`, digit length (null bulk
strings `$-1` are not supported, per the TODO in the source), `\r\n`,
body, `\r\n`. -/
def deserialize_bulk_string (input : List Nat) : Except String (Object × List Nat) :=
  match input with
  | 36 :: rest =>
      let (ds, rest1) := read_digits rest
      match parse_u32 ds with
      | none => Except.error "couldn't parse as an unsigned 32 bit integer"
      | some len =>
          match expect_delimiter rest1 with
          | Except.error e => Except.error e
          | Except.ok rest2 =>
              match read_body len rest2 with
              | Except.error e => Except.error e
              | Except.ok (s, rest3) =>
                  match expect_delimiter rest3 with
                  | Except.error e => Except.error e
                  | Except.ok rest4 => Except.ok (Object.BulkString (some s), rest4)
  | _ => Except.error "assertion failed: expected a dollar sign"

mutual

/-- `deserialize_object` of `resp.rs`.  Dispatch on the tag byte: `$`
(36) bulk string, `*` (42) array (inlined `deserialize_array`), `:` (58)
integer; any other byte is a decode error, and an exhausted input is the
"unexpected end of state" error.  `fuel` bounds array nesting depth. -/
def deserialize_object : Nat → List Nat → Except String (Object × List Nat)
  | 0, _ => Except.error "recursion fuel exhausted"
  | fuel + 1, input =>
      match input with
      | [] => Except.error "unexpected end of state"
      | 36 :: _ => deserialize_bulk_string input
      | 58 :: _ => deserialize_integer input
      | 42 :: rest =>
          let (ds, rest1) := read_digits rest
          match parse_u32 ds with
          | none => Except.error "couldn't parse as an unsigned 32 bit integer"
          | some len =>
              match expect_delimiter rest1 with
              | Except.error e => Except.error e
              | Except.ok rest2 =>
                  match deserialize_elements fuel len rest2 with
                  | Except.error e => Except.error e
                  | Except.ok (items, rest3) => Except.ok (Object.Array items, rest3)
      | _ :: _ => Except.error "byte is not a data type"
termination_by fuel _ => (fuel, 0)

/-- The element loop of `deserialize_array` in `resp.rs`: decode exactly
`n` objects one after the other. -/
def deserialize_elements : Nat → Nat → List Nat → Except String (List Object × List Nat)
  | _, 0, input => Except.ok ([], input)
  | fuel, n + 1, input =>
      match deserialize_object fuel input with
      | Except.error e => Except.error e
      | Except.ok (o, rest) =>
          match deserialize_elements fuel n rest with
          | Except.error e => Except.error e
          | Except.ok (os, rest2) => Except.ok (o :: os, rest2)
termination_by fuel n _ => (fuel, n + 1)

end

end resp

/-! ## The engine (`engine.rs`)

The store (`HashMap<Object, Entry>`) is modelled as a function
`Object → Option Entry`; `HashMap::insert` replaces the binding of a
key.  `Instant` timestamps and `Duration`s are `Nat` milliseconds; each
command that can create an entry receives the current time `now`
explicitly (the Rust code calls `Instant::now()` inside
`EntryBuilder::build`).  Commands arrive with their arguments as a
`List Object` (the `VecDeque` the Rust code pops from the front);
mutating commands return the reply together with the updated store. -/

namespace engine

/-- The `Entry` struct of `engine.rs`. -/
structure Entry where
  value : Object
  created_at : Nat
  duration : Option Nat
deriving Repr, DecidableEq

/-- The engine's key/value data store. -/
abbrev Store := Object → Option Entry

/-- The empty store (`Engine::new`). -/
def Store.empty : Store := fun _ => none

/-- `HashMap::insert`: bind `k` to `e`, keeping every other binding. -/
def Store.insert (k : Object) (e : Entry) (s : Store) : Store :=
  fun q => if q = k then some e else s q

/-- The expiration test inlined in `Engine::do_get`:
`entry.created_at + duration < Instant::now()`. -/
def is_expired (e : Entry) (now : Nat) : Bool :=
  match e.duration with
  | some d => decide (e.created_at + d < now)
  | none => false

/-- `convert_to_ascii_uppercase` of `engine.rs` (per-byte
`u8::to_ascii_uppercase`). -/
def convert_to_ascii_uppercase (s : List Nat) : List Nat :=
  s.map (fun b => if 97 ≤ b && b ≤ 122 then b - 32 else b)

/-- `Engine::do_get`. -/
def do_get (data : Store) (now : Nat) : List Object → Object
  | [] => Object.new_error "GET requires a key argument"
  | key :: rest =>
      if rest = [] then
        match data key with
        | none => Object.BulkString none
        | some entry =>
            if is_expired entry now then Object.BulkString none else entry.value
      else Object.new_error "GET requires exactly one argument"

/-- The digit loop of the `PX` branch of `Engine::do_set`, accumulator
form.  The digit test is the source's literal `b'0' <= b && b < b'9'`,
i.e. `48 ≤ b && b < 57` — note the strict upper bound. -/
def parse_px_duration (acc : Nat) : List Nat → Option Nat
  | [] => some acc
  | b :: rest =>
      if 48 ≤ b && b < 57 then parse_px_duration (10 * acc + (b - 48)) rest
      else none

/-- `Engine::do_set`. -/
def do_set (data : Store) (now : Nat) : List Object → Object × Store
  | [] => (Object.new_error "SET requires a key argument", data)
  | [_] => (Object.new_error "SET requires a value argument", data)
  | key :: value :: rest =>
      match rest with
      | Object.BulkString (some opt) :: rest2 =>
          if convert_to_ascii_uppercase opt = strBytes "PX" then
            match rest2 with
            | Object.BulkString (some dur) :: _ =>
                match parse_px_duration 0 dur with
                | some ms =>
                    (Object.new_simple_string "OK",
                     Store.insert key ⟨value, now, some ms⟩ data)
                | none => (Object.new_error "Invalid PX duration", data)
            | _ => (Object.new_error "PX requires a duration", data)
          else
            (Object.new_simple_string "OK", Store.insert key ⟨value, now, none⟩ data)
      | _ => (Object.new_simple_string "OK", Store.insert key ⟨value, now, none⟩ data)

/-- The `while let Some(element) = elements.pop_front()` loop of
`Engine::do_rpush`: push each element at the back. -/
def rpush_loop : List Object → List Object → List Object
  | items, [] => items
  | items, e :: rest => rpush_loop (items ++ [e]) rest

/-- The `while let Some(element) = elements.pop_front()` loop of
`Engine::do_lpush`: insert each element at index 0. -/
def lpush_loop : List Object → List Object → List Object
  | items, [] => items
  | items, e :: rest => lpush_loop (e :: items) rest

/-- `Engine::do_rpush`.  `entry().or_insert(..)` materializes a fresh
empty-array entry (timestamped `now`, no TTL) when the key is absent;
when the existing value is not an array the command errors without
touching the store. -/
def do_rpush (data : Store) (now : Nat) : List Object → Object × Store
  | [] => (Object.new_error "RPUSH requires a key argument", data)
  | key :: args =>
      if args = [] then (Object.new_error "RPUSH requires an element argument", data)
      else
        let entry := match data key with
          | some e => e
          | none => ⟨Object.new_empty_array, now, none⟩
        match entry.value with
        | Object.Array items =>
            let items2 := rpush_loop items args
            (Object.Integer (items2.length : Int),
             Store.insert key ⟨Object.Array items2, entry.created_at, entry.duration⟩ data)
        | _ => (Object.new_error "object at key is not an array", data)

/-- `Engine::do_lpush` (same shape as `do_rpush`, inserting at the
front). -/
def do_lpush (data : Store) (now : Nat) : List Object → Object × Store
  | [] => (Object.new_error "LPUSH requires a key argument", data)
  | key :: args =>
      if args = [] then (Object.new_error "LPUSH requires an element argument", data)
      else
        let entry := match data key with
          | some e => e
          | none => ⟨Object.new_empty_array, now, none⟩
        match entry.value with
        | Object.Array items =>
            let items2 := lpush_loop items args
            (Object.Integer (items2.length : Int),
             Store.insert key ⟨Object.Array items2, entry.created_at, entry.duration⟩ data)
        | _ => (Object.new_error "object at key is not an array", data)

/-- `Engine::do_lpop`.  The missing-key-argument message really is
`LLEN requires a key argument` in the source.  No expiration check. -/
def do_lpop (data : Store) : List Object → Object × Store
  | [] => (Object.new_error "LLEN requires a key argument", data)
  | key :: _ =>
      match data key with
      | none => (Object.BulkString none, data)
      | some entry =>
          match entry.value with
          | Object.Array items =>
              match items with
              | [] => (Object.BulkString none, data)
              | h :: t =>
                  (h, Store.insert key ⟨Object.Array t, entry.created_at, entry.duration⟩ data)
          | _ => (Object.BulkString none, data)

/-- `Engine::do_llen`.  No expiration check. -/
def do_llen (data : Store) : List Object → Object
  | [] => Object.new_error "LLEN requires a key argument"
  | key :: _ =>
      match data key with
      | none => Object.Integer 0
      | some entry =>
          match entry.value with
          | Object.Array items => Object.Integer (items.length : Int)
          | _ => Object.Integer 0

/-- The digit loop of `parse_i64` in `engine.rs` (`n = 10 * n + digit`,
digits `48 ≤ b ≤ 57`). -/
def parse_i64_digits (n : Int) : List Nat → Option Int
  | [] => some n
  | b :: rest =>
      if 48 ≤ b && b ≤ 57 then parse_i64_digits (10 * n + ((b - 48 : Nat) : Int)) rest
      else none

/-- `parse_i64` of `engine.rs`: optional `+`/`-` sign, then one or more
ASCII digits. -/
def parse_i64 (s : List Nat) : Option Int :=
  match s with
  | [] => none
  | b :: rest =>
      let sd : Bool × List Nat :=
        if b = 45 then (true, rest)
        else if b = 43 then (false, rest)
        else (false, s)
      if sd.2 = [] then none
      else
        match parse_i64_digits 0 sd.2 with
        | none => none
        | some n => some (if sd.1 then -n else n)

/-- `ObjectArray::lrange` of `engine.rs`: re-base negative indices from
the end, reject out-of-range starts, clamp the stop, take the inclusive
slice `items[start..=stop]`. -/
def lrange (items : List Object) (start stop : Int) : List Object :=
  let len := items.length
  if len = 0 then []
  else
    let s : Nat := (if start < 0 then max 0 ((len : Int) + start) else start).toNat
    let e : Nat := (if stop < 0 then max 0 ((len : Int) + stop) else stop).toNat
    if s ≥ len || s > e then []
    else
      let e2 := min e (len - 1)
      (items.take (e2 + 1)).drop s

/-- `Engine::do_lrange`.  No expiration check. -/
def do_lrange (data : Store) : List Object → Object
  | [] => Object.new_error "LRANGE requires a key argument"
  | key :: rest =>
      match rest with
      | Object.BulkString (some sb) :: rest2 =>
          match rest2 with
          | Object.BulkString (some eb) :: _ =>
              match parse_i64 sb with
              | none => Object.new_error "couldn't parse start as an integer"
              | some start =>
                  match parse_i64 eb with
                  | none => Object.new_error "couldn't parse stop as an integer"
                  | some stop =>
                      match data key with
                      | none => Object.new_empty_array
                      | some entry =>
                          match entry.value with
                          | Object.Array items => Object.Array (lrange items start stop)
                          | _ => Object.new_empty_array
          | _ => Object.new_error "LRANGE requires a stop index"
      | _ => Object.new_error "LRANGE requires a start index"

/-- `Engine::do_echo`. -/
def do_echo : List Object → Object
  | [] => Object.new_error "ECHO requires an argument"
  | arg :: rest =>
      if rest = [] then arg else Object.new_error "ECHO requires exactly one argument"

/-- `Engine::do_command`: shape checks, case-insensitive dispatch on the
command name, reply and updated store. -/
def do_command (data : Store) (now : Nat) (object : Object) : Object × Store :=
  match object with
  | Object.Array (command :: elements) =>
      match command with
      | Object.BulkString (some cmdb) =>
          let cmd := convert_to_ascii_uppercase cmdb
          if cmd = strBytes "GET" then (do_get data now elements, data)
          else if cmd = strBytes "PING" then (Object.new_simple_string "PONG", data)
          else if cmd = strBytes "ECHO" then (do_echo elements, data)
          else if cmd = strBytes "RPUSH" then do_rpush data now elements
          else if cmd = strBytes "LPUSH" then do_lpush data now elements
          else if cmd = strBytes "SET" then do_set data now elements
          else if cmd = strBytes "LRANGE" then (do_lrange data elements, data)
          else if cmd = strBytes "LLEN" then (do_llen data elements, data)
          else if cmd = strBytes "LPOP" then do_lpop data elements
          else (Object.new_error "unknown command", data)
      | _ => (Object.new_error "expected first element to be a non-null bulk string", data)
  | Object.Array [] => (Object.new_error "expected an non-empty array", data)
  | _ => (Object.new_error "expected an non-empty array", data)

end engine

/-! ## Auxiliary definitions used by the statements -/

/-- Shorthand for a non-null bulk string over an ASCII literal. -/
def bulk (s : String) : Object :=
  Object.BulkString (some (strBytes s))

/-- The LRANGE index rules as the specification words them: re-base
negative indices to `max 0 (n + i)`, empty when `start ≥ n` or
`start > stop` after re-basing, else clamp `stop` to `min stop (n-1)`
and take the inclusive slice.  Stated over `Int` exactly as written, to
be compared with the source-derived `engine.lrange`. -/
def lrangeSpec (L : List Object) (start stop : Int) : List Object :=
  let n : Int := L.length
  let s := if start < 0 then max 0 (n + start) else start
  let e := if stop < 0 then max 0 (n + stop) else stop
  if s ≥ n ∨ s > e then []
  else (L.take ((min e (n - 1)).toNat + 1)).drop s.toNat

/-- A command object of the shape `do_command` accepts without a shape
error: an Array whose first element is a non-null BulkString. -/
def well_shaped : Object → Bool
  | Object.Array (Object.BulkString (some _) :: _) => true
  | _ => false

mutual

/-- The fragment of `Object` the decoder of `resp.rs` can read back:
no `SimpleString`, no `Error`, no null `BulkString` anywhere; array and
bulk lengths within `u32`; integer magnitudes within `i64`. -/
def decodable : Object → Bool
  | Object.Array items => decide (items.length < 2 ^ 32) && decodableList items
  | Object.BulkString (some s) => decide (s.length < 2 ^ 32)
  | Object.BulkString none => false
  | Object.Error _ => false
  | Object.Integer i => decide (i.natAbs ≤ 2 ^ 63 - 1)
  | Object.SimpleString _ => false

/-- `decodable` on each element of an array. -/
def decodableList : List Object → Bool
  | [] => true
  | o :: os => decodable o && decodableList os

end

mutual

/-- Array-nesting depth of an object: the recursion fuel
`deserialize_object` needs to decode it. -/
def decodeFuel : Object → Nat
  | Object.Array items => decodeFuelList items + 1
  | _ => 1

/-- Maximum `decodeFuel` over a list of objects. -/
def decodeFuelList : List Object → Nat
  | [] => 0
  | o :: os => max (decodeFuel o) (decodeFuelList os)

end

namespace resp

/-- The `ReadState` struct of `resp.rs`.  The 1024-byte buffer together
with its `length` field is modelled as the list of its valid bytes. -/
structure ReadState where
  buffer : List Nat
  offset : Nat
  can_read_more : Bool
deriving Repr, DecidableEq

/-- `ReadState::new`. -/
def ReadState.new : ReadState :=
  { buffer := [], offset := 0, can_read_more := true }

/-- `ReadState::advance`. -/
def ReadState.advance (s : ReadState) : ReadState :=
  { s with offset := s.offset + 1 }

/-- `ReadState::current`, with the byte source modelled as the list of
chunks successive `stream.read` calls deliver (an empty chunk, or an
exhausted chunk list, is a zero-byte read, i.e. end of stream).  If the
buffer still holds an unread byte it is returned; otherwise, while
`can_read_more`, one chunk is read into the buffer (`read_more`) and
`current` re-runs: a nonempty chunk yields its first byte, a zero-byte
read clears `can_read_more` and yields no byte.  Once `can_read_more`
is false the result is no byte available.  Returns the byte (if any),
the updated state, and the unconsumed chunks. -/
def ReadState.current (s : ReadState) (stream : List (List Nat)) :
    Option Nat × ReadState × List (List Nat) :=
  if h : s.offset < s.buffer.length then
    (some (s.buffer.get ⟨s.offset, h⟩), s, stream)
  else if s.can_read_more then
    match stream with
    | [] => (none, { buffer := [], offset := 0, can_read_more := false }, [])
    | c :: rest =>
        if h2 : 0 < c.length then
          (some (c.get ⟨0, h2⟩), { buffer := c, offset := 0, can_read_more := true }, rest)
        else
          (none, { buffer := [], offset := 0, can_read_more := false }, rest)
  else (none, s, stream)

end resp

/-! ## Helper lemmas -/

theorem rpush_loop_eq (args items : List Object) :
    engine.rpush_loop items args = items ++ args := by
  induction args generalizing items with
  | nil => simp [engine.rpush_loop]
  | cons e rest ih => simp [engine.rpush_loop, ih]

theorem lpush_loop_eq (args items : List Object) :
    engine.lpush_loop items args = args.reverse ++ items := by
  induction args generalizing items with
  | nil => simp [engine.lpush_loop]
  | cons e rest ih => simp [engine.lpush_loop, ih]

set_option maxHeartbeats 1000000 in
theorem lrange_eq_lrangeSpec (items : List Object) (start stop : Int) :
    engine.lrange items start stop = lrangeSpec items start stop := by
  by_cases h0 : items.length = 0
  · obtain rfl := List.length_eq_zero.mp h0
    simp [engine.lrange, lrangeSpec]
  · simp only [engine.lrange, lrangeSpec]
    rw [if_neg h0]
    simp only [Bool.or_eq_true, decide_eq_true_eq, ge_iff_le]
    have hlen : 1 ≤ items.length := Nat.one_le_iff_ne_zero.mpr h0
    split_ifs <;> first
      | rfl
      | (exfalso; omega)
      | (congr 1 <;> first | omega | (congr 1 <;> omega))

/-! ## The claims -/

/-- C2: with a list `L` stored at `k`, `LRANGE k start stop` (indices
given as bulk strings that parse to the integers `start`, `stop`)
replies with exactly the Array described by the spec's index rules:
negative indices re-based to `max 0 (n + i)`, the empty Array when the
re-based `start ≥ n` or `start > stop`, else the inclusive slice with
`stop` clamped to `n - 1`. -/
theorem lrange_index_rules (data : engine.Store) (k : Object) (L : List Object)
    (t : Nat) (dur : Option Nat) (sb eb : List Nat) (start stop : Int)
    (rest : List Object)
    (hk : data k = some ⟨Object.Array L, t, dur⟩)
    (hs : engine.parse_i64 sb = some start)
    (he : engine.parse_i64 eb = some stop) :
    engine.do_lrange data
        (k :: Object.BulkString (some sb) :: Object.BulkString (some eb) :: rest) =
      Object.Array (lrangeSpec L start stop) := by
  simp [engine.do_lrange, hs, he, hk, lrange_eq_lrangeSpec]

theorem lrange_index_rules_witness :
    (engine.Store.insert (bulk "l")
        ⟨Object.Array [bulk "a", bulk "b", bulk "c"], 0, none⟩ engine.Store.empty) (bulk "l") =
      some ⟨Object.Array [bulk "a", bulk "b", bulk "c"], 0, none⟩ ∧
    engine.parse_i64 (strBytes "0") = some 0 ∧
    engine.parse_i64 (strBytes "-1") = some (-1) ∧
    engine.do_lrange
        (engine.Store.insert (bulk "l")
          ⟨Object.Array [bulk "a", bulk "b", bulk "c"], 0, none⟩ engine.Store.empty)
        (bulk "l" :: Object.BulkString (some (strBytes "0")) ::
          Object.BulkString (some (strBytes "-1")) :: []) =
      Object.Array (lrangeSpec [bulk "a", bulk "b", bulk "c"] 0 (-1)) :=
  ⟨by decide, by decide, by decide,
   lrange_index_rules _ _ _ 0 none _ _ 0 (-1) [] (by decide) (by decide) (by decide)⟩

/-- C4 (code bug): the spec requires the `PX` argument to parse as soon
as every byte is an ASCII digit `'0'..='9'`, but the source's digit test
is `b'0' <= b && b < b'9'`, which excludes `'9'` (byte 57): `SET k v PX 9`
is answered with the Error `Invalid PX duration` instead of setting a
9 ms TTL. -/
theorem px_nine_rejected :
    engine.do_set engine.Store.empty 0 [bulk "k", bulk "v", bulk "PX", bulk "9"] =
      (Object.Error (strBytes "Invalid PX duration"), engine.Store.empty) := rfl

/-- C6: LPUSH onto an existing list `L` with arguments `v1..vk` (k ≥ 1)
prepends each value individually, leaving `vk, …, v1` followed by `L`
(argument order reversed), and replies with the Integer `k + |L|`.  The
entry's TTL metadata survives. -/
theorem lpush_ordering (data : engine.Store) (now : Nat) (k : Object)
    (L args : List Object) (t : Nat) (dur : Option Nat)
    (hargs : args ≠ []) (hk : data k = some ⟨Object.Array L, t, dur⟩) :
    engine.do_lpush data now (k :: args) =
      (Object.Integer ((args.length + L.length : Nat) : Int),
       engine.Store.insert k ⟨Object.Array (args.reverse ++ L), t, dur⟩ data) := by
  simp [engine.do_lpush, hargs, hk, lpush_loop_eq]

theorem lpush_ordering_witness :
    ([bulk "x", bulk "y"] : List Object) ≠ [] ∧
    (engine.Store.insert (bulk "l") ⟨Object.Array [bulk "a"], 3, none⟩ engine.Store.empty)
        (bulk "l") = some ⟨Object.Array [bulk "a"], 3, none⟩ ∧
    engine.do_lpush
        (engine.Store.insert (bulk "l") ⟨Object.Array [bulk "a"], 3, none⟩ engine.Store.empty)
        7 (bulk "l" :: [bulk "x", bulk "y"]) =
      (Object.Integer ((([bulk "x", bulk "y"] : List Object).length +
          ([bulk "a"] : List Object).length : Nat) : Int),
       engine.Store.insert (bulk "l")
         ⟨Object.Array (([bulk "x", bulk "y"] : List Object).reverse ++ [bulk "a"]), 3, none⟩
         (engine.Store.insert (bulk "l") ⟨Object.Array [bulk "a"], 3, none⟩ engine.Store.empty)) :=
  ⟨by decide, by decide,
   lpush_ordering _ 7 _ _ _ _ _ (by decide) (by decide)⟩

/-- C8: an input object that is not an Array, or is an empty Array, or
whose first element is not a non-null BulkString, is answered with an
Error reply (never any other variant; `do_command` is total, so no
panic). -/
theorem malformed_command_errors (data : engine.Store) (now : Nat) (o : Object)
    (h : well_shaped o = false) :
    ∃ msg, (engine.do_command data now o).1 = Object.Error msg := by
  cases o with
  | Array items =>
      cases items with
      | nil => exact ⟨_, rfl⟩
      | cons c rest =>
          cases c with
          | Array _ => exact ⟨_, rfl⟩
          | BulkString os =>
              cases os with
              | none => exact ⟨_, rfl⟩
              | some b => simp [well_shaped] at h
          | Error _ => exact ⟨_, rfl⟩
          | Integer _ => exact ⟨_, rfl⟩
          | SimpleString _ => exact ⟨_, rfl⟩
  | BulkString _ => exact ⟨_, rfl⟩
  | Error _ => exact ⟨_, rfl⟩
  | Integer _ => exact ⟨_, rfl⟩
  | SimpleString _ => exact ⟨_, rfl⟩

theorem malformed_command_errors_witness :
    well_shaped (Object.Integer 5) = false ∧
    ∃ msg, (engine.do_command engine.Store.empty 0 (Object.Integer 5)).1 = Object.Error msg :=
  ⟨by decide, malformed_command_errors engine.Store.empty 0 (Object.Integer 5) (by decide)⟩

/-- C10: RPUSH, LPUSH and LPOP on a key holding an Array change only
that entry's item list — `created_at` and `duration` are preserved —
and leave every other key's binding untouched. -/
theorem list_mutations_frame (data : engine.Store) (now : Nat) (k : Object)
    (L args : List Object) (t : Nat) (dur : Option Nat)
    (hk : data k = some ⟨Object.Array L, t, dur⟩) (hargs : args ≠ []) :
    ((engine.do_rpush data now (k :: args)).2 k =
        some ⟨Object.Array (L ++ args), t, dur⟩ ∧
      ∀ q, q ≠ k → (engine.do_rpush data now (k :: args)).2 q = data q) ∧
    ((engine.do_lpush data now (k :: args)).2 k =
        some ⟨Object.Array (args.reverse ++ L), t, dur⟩ ∧
      ∀ q, q ≠ k → (engine.do_lpush data now (k :: args)).2 q = data q) ∧
    ((engine.do_lpop data (k :: args)).2 k =
        some ⟨Object.Array L.tail, t, dur⟩ ∧
      ∀ q, q ≠ k → (engine.do_lpop data (k :: args)).2 q = data q) := by
  refine ⟨⟨?_, ?_⟩, ⟨?_, ?_⟩, ?_⟩
  · simp [engine.do_rpush, hargs, hk, rpush_loop_eq, engine.Store.insert]
  · intro q hq
    simp [engine.do_rpush, hargs, hk, engine.Store.insert, hq]
  · simp [engine.do_lpush, hargs, hk, lpush_loop_eq, engine.Store.insert]
  · intro q hq
    simp [engine.do_lpush, hargs, hk, engine.Store.insert, hq]
  · cases L with
    | nil =>
        refine ⟨?_, ?_⟩
        · simp [engine.do_lpop, hk]
        · intro q hq
          simp [engine.do_lpop, hk]
    | cons h0 t0 =>
        refine ⟨?_, ?_⟩
        · simp [engine.do_lpop, hk, engine.Store.insert]
        · intro q hq
          simp [engine.do_lpop, hk, engine.Store.insert, hq]

theorem list_mutations_frame_witness :
    (engine.Store.insert (bulk "l") ⟨Object.Array [bulk "a"], 3, some 9⟩ engine.Store.empty)
        (bulk "l") = some ⟨Object.Array [bulk "a"], 3, some 9⟩ ∧
    ([bulk "x"] : List Object) ≠ [] ∧
    (((engine.do_rpush
          (engine.Store.insert (bulk "l") ⟨Object.Array [bulk "a"], 3, some 9⟩ engine.Store.empty)
          7 (bulk "l" :: [bulk "x"])).2 (bulk "l") =
        some ⟨Object.Array ([bulk "a"] ++ [bulk "x"]), 3, some 9⟩ ∧
      ∀ q, q ≠ bulk "l" →
        (engine.do_rpush
          (engine.Store.insert (bulk "l") ⟨Object.Array [bulk "a"], 3, some 9⟩ engine.Store.empty)
          7 (bulk "l" :: [bulk "x"])).2 q =
        (engine.Store.insert (bulk "l") ⟨Object.Array [bulk "a"], 3, some 9⟩ engine.Store.empty) q) ∧
    ((engine.do_lpush
          (engine.Store.insert (bulk "l") ⟨Object.Array [bulk "a"], 3, some 9⟩ engine.Store.empty)
          7 (bulk "l" :: [bulk "x"])).2 (bulk "l") =
        some ⟨Object.Array (([bulk "x"] : List Object).reverse ++ [bulk "a"]), 3, some 9⟩ ∧
      ∀ q, q ≠ bulk "l" →
        (engine.do_lpush
          (engine.Store.insert (bulk "l") ⟨Object.Array [bulk "a"], 3, some 9⟩ engine.Store.empty)
          7 (bulk "l" :: [bulk "x"])).2 q =
        (engine.Store.insert (bulk "l") ⟨Object.Array [bulk "a"], 3, some 9⟩ engine.Store.empty) q) ∧
    ((engine.do_lpop
          (engine.Store.insert (bulk "l") ⟨Object.Array [bulk "a"], 3, some 9⟩ engine.Store.empty)
          (bulk "l" :: [bulk "x"])).2 (bulk "l") =
        some ⟨Object.Array ([bulk "a"] : List Object).tail, 3, some 9⟩ ∧
      ∀ q, q ≠ bulk "l" →
        (engine.do_lpop
          (engine.Store.insert (bulk "l") ⟨Object.Array [bulk "a"], 3, some 9⟩ engine.Store.empty)
          (bulk "l" :: [bulk "x"])).2 q =
        (engine.Store.insert (bulk "l") ⟨Object.Array [bulk "a"], 3, some 9⟩ engine.Store.empty) q)) :=
  ⟨by decide, by decide,
   list_mutations_frame _ 7 _ _ _ _ _ (by decide) (by decide)⟩

theorem do_llen_congr (d1 d2 : engine.Store)
    (h : ∀ q, (d1 q).map engine.Entry.value = (d2 q).map engine.Entry.value) :
    ∀ args, engine.do_llen d1 args = engine.do_llen d2 args := by
  intro args
  cases args with
  | nil => rfl
  | cons key rest =>
      have hq := h key
      simp only [engine.do_llen]
      cases h1 : d1 key with
      | none =>
          cases h2 : d2 key with
          | none => rfl
          | some e2 => rw [h1, h2] at hq; simp at hq
      | some e1 =>
          cases h2 : d2 key with
          | none => rw [h1, h2] at hq; simp at hq
          | some e2 =>
              rw [h1, h2] at hq
              simp only [Option.map_some'] at hq
              obtain ⟨v1, c1, du1⟩ := e1
              obtain ⟨v2, c2, du2⟩ := e2
              injection hq with hq
              subst hq
              rfl

theorem do_lrange_congr (d1 d2 : engine.Store)
    (h : ∀ q, (d1 q).map engine.Entry.value = (d2 q).map engine.Entry.value) :
    ∀ args, engine.do_lrange d1 args = engine.do_lrange d2 args := by
  intro args
  cases args with
  | nil => rfl
  | cons key rest =>
      have hq := h key
      rcases rest with _ | ⟨o1, rest2⟩
      · rfl
      · rcases o1 with _ | ⟨_ | sb⟩ | _ | _ | _ <;> try rfl
        rcases rest2 with _ | ⟨o2, rest3⟩
        · rfl
        · rcases o2 with _ | ⟨_ | eb⟩ | _ | _ | _ <;> try rfl
          simp only [engine.do_lrange]
          cases engine.parse_i64 sb with
          | none => rfl
          | some start =>
          cases engine.parse_i64 eb with
          | none => rfl
          | some stop =>
          cases h1 : d1 key with
          | none =>
              cases h2 : d2 key with
              | none => rfl
              | some e2 => rw [h1, h2] at hq; simp at hq
          | some e1 =>
              cases h2 : d2 key with
              | none => rw [h1, h2] at hq; simp at hq
              | some e2 =>
                  rw [h1, h2] at hq
                  simp only [Option.map_some'] at hq
                  obtain ⟨v1, c1, du1⟩ := e1
                  obtain ⟨v2, c2, du2⟩ := e2
                  injection hq with hq
                  subst hq
                  rfl

theorem do_lpop_fst_congr (d1 d2 : engine.Store)
    (h : ∀ q, (d1 q).map engine.Entry.value = (d2 q).map engine.Entry.value) :
    ∀ args, (engine.do_lpop d1 args).1 = (engine.do_lpop d2 args).1 := by
  intro args
  cases args with
  | nil => rfl
  | cons key rest =>
      have hq := h key
      simp only [engine.do_lpop]
      cases h1 : d1 key with
      | none =>
          cases h2 : d2 key with
          | none => rfl
          | some e2 => rw [h1, h2] at hq; simp at hq
      | some e1 =>
          cases h2 : d2 key with
          | none => rw [h1, h2] at hq; simp at hq
          | some e2 =>
              rw [h1, h2] at hq
              simp only [Option.map_some'] at hq
              obtain ⟨v1, c1, du1⟩ := e1
              obtain ⟨v2, c2, du2⟩ := e2
              injection hq with hq
              subst hq
              cases v1 with
              | Array items => cases items with | nil => rfl | cons a b => rfl
              | BulkString o => rfl
              | Error m => rfl
              | Integer i => rfl
              | SimpleString s => rfl

/-- C7: LRANGE, LLEN and LPOP never consult an entry's `created_at` or
`duration`: their replies over a store binding `k` to value `v` with
one set of TTL metadata coincide with the replies over the same store
with any other TTL metadata at `k` — in particular with metadata under
which the entry is long expired.  Only GET checks expiration. -/
theorem list_commands_ignore_ttl (data : engine.Store) (k v : Object)
    (t1 t2 : Nat) (d1 d2 : Option Nat) (args : List Object) :
    engine.do_llen (engine.Store.insert k ⟨v, t1, d1⟩ data) args =
      engine.do_llen (engine.Store.insert k ⟨v, t2, d2⟩ data) args ∧
    engine.do_lrange (engine.Store.insert k ⟨v, t1, d1⟩ data) args =
      engine.do_lrange (engine.Store.insert k ⟨v, t2, d2⟩ data) args ∧
    (engine.do_lpop (engine.Store.insert k ⟨v, t1, d1⟩ data) args).1 =
      (engine.do_lpop (engine.Store.insert k ⟨v, t2, d2⟩ data) args).1 := by
  have h : ∀ q,
      ((engine.Store.insert k ⟨v, t1, d1⟩ data) q).map engine.Entry.value =
      ((engine.Store.insert k ⟨v, t2, d2⟩ data) q).map engine.Entry.value := by
    intro q
    by_cases hq : q = k <;> simp [engine.Store.insert, hq]
  exact ⟨do_llen_congr _ _ h args, do_lrange_congr _ _ h args, do_lpop_fst_congr _ _ h args⟩

/-- C3: after `SET k v PX m` executed at time `t0`, a `GET k` at time
`t0 + d` returns `v` whenever `d < m` and the null BulkString whenever
`d > m`; and in general an entry with TTL `ttl` is expired exactly when
`now > created_at + ttl`. -/
theorem ttl_get_semantics (data : engine.Store) (k v : Object) (pxb : List Nat)
    (m t0 d : Nat) (hm : engine.parse_px_duration 0 pxb = some m) :
    (d < m →
      engine.do_get
        ((engine.do_set data t0 [k, v, bulk "PX", Object.BulkString (some pxb)]).2)
        (t0 + d) [k] = v) ∧
    (d > m →
      engine.do_get
        ((engine.do_set data t0 [k, v, bulk "PX", Object.BulkString (some pxb)]).2)
        (t0 + d) [k] = Object.BulkString none) ∧
    (∀ (e : engine.Entry) (now ttl : Nat), e.duration = some ttl →
      (engine.is_expired e now = true ↔ now > e.created_at + ttl)) := by
  have hpx : engine.convert_to_ascii_uppercase (strBytes "PX") = strBytes "PX" := rfl
  have hset :
      (engine.do_set data t0 [k, v, bulk "PX", Object.BulkString (some pxb)]).2 =
        engine.Store.insert k ⟨v, t0, some m⟩ data := by
    simp [engine.do_set, bulk, hm, hpx]
  refine ⟨?_, ?_, ?_⟩
  · intro hd
    rw [hset]
    simp [engine.do_get, engine.Store.insert, engine.is_expired]
    omega
  · intro hd
    rw [hset]
    simp [engine.do_get, engine.Store.insert, engine.is_expired]
    omega
  · intro e now ttl he
    simp [engine.is_expired, he]

theorem ttl_get_semantics_witness :
    engine.parse_px_duration 0 (strBytes "100") = some 100 ∧
    ((50 < 100 →
      engine.do_get
        ((engine.do_set engine.Store.empty 40
            [bulk "k", bulk "v", bulk "PX", Object.BulkString (some (strBytes "100"))]).2)
        (40 + 50) [bulk "k"] = bulk "v") ∧
    (50 > 100 →
      engine.do_get
        ((engine.do_set engine.Store.empty 40
            [bulk "k", bulk "v", bulk "PX", Object.BulkString (some (strBytes "100"))]).2)
        (40 + 50) [bulk "k"] = Object.BulkString none) ∧
    (∀ (e : engine.Entry) (now ttl : Nat), e.duration = some ttl →
      (engine.is_expired e now = true ↔ now > e.created_at + ttl))) :=
  ⟨by decide, ttl_get_semantics engine.Store.empty (bulk "k") (bulk "v")
      (strBytes "100") 100 40 50 (by decide)⟩

theorem do_set_unchanged_or_no_error (data : engine.Store) (now : Nat)
    (els : List Object) :
    (engine.do_set data now els).2 = data ∨
    ∀ msg, (engine.do_set data now els).1 ≠ Object.Error msg := by
  rcases els with _ | ⟨k, _ | ⟨v, rest⟩⟩
  · exact Or.inl rfl
  · exact Or.inl rfl
  · cases rest with
    | nil => right; intro msg; simp [engine.do_set, Object.new_simple_string]
    | cons o3 rest2 =>
        cases o3 with
        | BulkString ob =>
            cases ob with
            | none => right; intro msg; simp [engine.do_set, Object.new_simple_string]
            | some opt =>
                by_cases hopt : engine.convert_to_ascii_uppercase opt = strBytes "PX"
                · cases rest2 with
                  | nil => left; simp [engine.do_set, hopt]
                  | cons o4 rest3 =>
                      cases o4 with
                      | BulkString ob2 =>
                          cases ob2 with
                          | none => left; simp [engine.do_set, hopt]
                          | some dur =>
                              cases hp : engine.parse_px_duration 0 dur with
                              | none => left; simp [engine.do_set, hopt, hp]
                              | some ms =>
                                  right; intro msg
                                  simp [engine.do_set, hopt, hp, Object.new_simple_string]
                      | Array a => left; simp [engine.do_set, hopt]
                      | Error m => left; simp [engine.do_set, hopt]
                      | Integer i => left; simp [engine.do_set, hopt]
                      | SimpleString s2 => left; simp [engine.do_set, hopt]
                · right; intro msg; simp [engine.do_set, hopt, Object.new_simple_string]
        | Array a => right; intro msg; simp [engine.do_set, Object.new_simple_string]
        | Error m => right; intro msg; simp [engine.do_set, Object.new_simple_string]
        | Integer i => right; intro msg; simp [engine.do_set, Object.new_simple_string]
        | SimpleString s2 => right; intro msg; simp [engine.do_set, Object.new_simple_string]

theorem do_rpush_unchanged_or_no_error (data : engine.Store) (now : Nat)
    (els : List Object) :
    (engine.do_rpush data now els).2 = data ∨
    ∀ msg, (engine.do_rpush data now els).1 ≠ Object.Error msg := by
  rcases els with _ | ⟨k, args⟩
  · exact Or.inl rfl
  · by_cases hargs : args = []
    · subst hargs; left; rfl
    · cases hk : data k with
      | none =>
          right; intro msg
          simp [engine.do_rpush, hargs, hk, Object.new_empty_array]
      | some e =>
          obtain ⟨v, c, du⟩ := e
          cases v with
          | Array items => right; intro msg; simp [engine.do_rpush, hargs, hk]
          | BulkString o => left; simp [engine.do_rpush, hargs, hk]
          | Error m => left; simp [engine.do_rpush, hargs, hk]
          | Integer i => left; simp [engine.do_rpush, hargs, hk]
          | SimpleString s2 => left; simp [engine.do_rpush, hargs, hk]

theorem do_lpush_unchanged_or_no_error (data : engine.Store) (now : Nat)
    (els : List Object) :
    (engine.do_lpush data now els).2 = data ∨
    ∀ msg, (engine.do_lpush data now els).1 ≠ Object.Error msg := by
  rcases els with _ | ⟨k, args⟩
  · exact Or.inl rfl
  · by_cases hargs : args = []
    · subst hargs; left; rfl
    · cases hk : data k with
      | none =>
          right; intro msg
          simp [engine.do_lpush, hargs, hk, Object.new_empty_array]
      | some e =>
          obtain ⟨v, c, du⟩ := e
          cases v with
          | Array items => right; intro msg; simp [engine.do_lpush, hargs, hk]
          | BulkString o => left; simp [engine.do_lpush, hargs, hk]
          | Error m => left; simp [engine.do_lpush, hargs, hk]
          | Integer i => left; simp [engine.do_lpush, hargs, hk]
          | SimpleString s2 => left; simp [engine.do_lpush, hargs, hk]

theorem do_lpop_error_unchanged (data : engine.Store)
    (hclean : ∀ q e, data q = some e → ∀ items, e.value = Object.Array items →
      ∀ msg, Object.Error msg ∉ items)
    (els : List Object) (msg : List Nat)
    (h : (engine.do_lpop data els).1 = Object.Error msg) :
    (engine.do_lpop data els).2 = data := by
  rcases els with _ | ⟨key, rest⟩
  · rfl
  · cases hk : data key with
    | none => simp [engine.do_lpop, hk]
    | some e =>
        obtain ⟨v, c, du⟩ := e
        cases v with
        | Array items =>
            cases items with
            | nil => simp [engine.do_lpop, hk]
            | cons hd tl =>
                exfalso
                have hhd : hd = Object.Error msg := by
                  simpa [engine.do_lpop, hk] using h
                exact hclean key ⟨Object.Array (hd :: tl), c, du⟩ hk (hd :: tl) rfl msg
                  (hhd ▸ List.mem_cons_self hd tl)
        | BulkString o => simp [engine.do_lpop, hk]
        | Error m => simp [engine.do_lpop, hk]
        | Integer i => simp [engine.do_lpop, hk]
        | SimpleString s2 => simp [engine.do_lpop, hk]

/-- C5 counterexample: the claim's general clause — "whenever any
command returns an Error reply the store is identical to its state
before the command" — is false: on a store whose list at `k` starts
with a stored `Error` object, LPOP replies with that Error object *and*
removes it from the list. -/
theorem lpop_error_reply_mutates_store :
    (engine.do_command
        (engine.Store.insert (bulk "k")
          ⟨Object.Array [Object.Error (strBytes "boom")], 0, none⟩ engine.Store.empty)
        0 (Object.Array [bulk "LPOP", bulk "k"])).1 =
      Object.Error (strBytes "boom") ∧
    (engine.do_command
        (engine.Store.insert (bulk "k")
          ⟨Object.Array [Object.Error (strBytes "boom")], 0, none⟩ engine.Store.empty)
        0 (Object.Array [bulk "LPOP", bulk "k"])).2 (bulk "k") ≠
      (engine.Store.insert (bulk "k")
          ⟨Object.Array [Object.Error (strBytes "boom")], 0, none⟩ engine.Store.empty)
        (bulk "k") := by
  exact ⟨rfl, by decide⟩

set_option maxHeartbeats 1000000 in
/-- C5 (amended): RPUSH and LPUSH applied to a key holding a non-Array
value reply with the Error `object at key is not an array` and leave
the store — in particular that entry — unchanged.  The general clause
holds for every store whose stored lists contain no `Error` element
(every store reachable over the wire, since the decoder never produces
`Error` objects): whenever `do_command` returns an Error reply the
store is unchanged.  Without that restriction LPOP refutes it, see the
counterexample. -/
theorem error_replies_leave_store_unchanged (data : engine.Store) (now : Nat) :
    (∀ k e args, data k = some e → (∀ items, e.value ≠ Object.Array items) →
      args ≠ [] →
      ((engine.do_rpush data now (k :: args)).1 =
          Object.Error (strBytes "object at key is not an array") ∧
        (engine.do_rpush data now (k :: args)).2 = data ∧
        (engine.do_lpush data now (k :: args)).1 =
          Object.Error (strBytes "object at key is not an array") ∧
        (engine.do_lpush data now (k :: args)).2 = data)) ∧
    ((∀ q e, data q = some e → ∀ items, e.value = Object.Array items →
        ∀ msg, Object.Error msg ∉ items) →
      ∀ o msg, (engine.do_command data now o).1 = Object.Error msg →
        (engine.do_command data now o).2 = data) := by
  constructor
  · intro k e args hk hne hargs
    obtain ⟨v, c, du⟩ := e
    cases v with
    | Array items => exact absurd rfl (hne items)
    | BulkString o =>
        exact ⟨by simp [engine.do_rpush, hargs, hk, Object.new_error],
               by simp [engine.do_rpush, hargs, hk],
               by simp [engine.do_lpush, hargs, hk, Object.new_error],
               by simp [engine.do_lpush, hargs, hk]⟩
    | Error m =>
        exact ⟨by simp [engine.do_rpush, hargs, hk, Object.new_error],
               by simp [engine.do_rpush, hargs, hk],
               by simp [engine.do_lpush, hargs, hk, Object.new_error],
               by simp [engine.do_lpush, hargs, hk]⟩
    | Integer i =>
        exact ⟨by simp [engine.do_rpush, hargs, hk, Object.new_error],
               by simp [engine.do_rpush, hargs, hk],
               by simp [engine.do_lpush, hargs, hk, Object.new_error],
               by simp [engine.do_lpush, hargs, hk]⟩
    | SimpleString s2 =>
        exact ⟨by simp [engine.do_rpush, hargs, hk, Object.new_error],
               by simp [engine.do_rpush, hargs, hk],
               by simp [engine.do_lpush, hargs, hk, Object.new_error],
               by simp [engine.do_lpush, hargs, hk]⟩
  · intro hclean o msg herr
    cases o with
    | Array items =>
        cases items with
        | nil => rfl
        | cons c rest =>
            cases c with
            | Array _ => rfl
            | Error _ => rfl
            | Integer _ => rfl
            | SimpleString _ => rfl
            | BulkString ob =>
                cases ob with
                | none => rfl
                | some cmdb =>
                    simp only [engine.do_command] at herr ⊢
                    split_ifs at herr ⊢
                    · rfl
                    · rfl
                    · rfl
                    · rcases do_rpush_unchanged_or_no_error data now rest with hu | hne
                      · exact hu
                      · exact absurd herr (hne msg)
                    · rcases do_lpush_unchanged_or_no_error data now rest with hu | hne
                      · exact hu
                      · exact absurd herr (hne msg)
                    · rcases do_set_unchanged_or_no_error data now rest with hu | hne
                      · exact hu
                      · exact absurd herr (hne msg)
                    · rfl
                    · rfl
                    · exact do_lpop_error_unchanged data hclean rest msg herr
                    · rfl
    | BulkString _ => rfl
    | Error _ => rfl
    | Integer _ => rfl
    | SimpleString _ => rfl

set_option maxHeartbeats 1000000 in
theorem error_replies_leave_store_unchanged_witness :
    ((engine.Store.insert (bulk "s") ⟨bulk "str", 0, none⟩ engine.Store.empty) (bulk "s") =
        some ⟨bulk "str", 0, none⟩ ∧
      ([bulk "x"] : List Object) ≠ [] ∧
      (engine.do_rpush
          (engine.Store.insert (bulk "s") ⟨bulk "str", 0, none⟩ engine.Store.empty)
          0 (bulk "s" :: [bulk "x"])).1 =
        Object.Error (strBytes "object at key is not an array") ∧
      (engine.do_rpush
          (engine.Store.insert (bulk "s") ⟨bulk "str", 0, none⟩ engine.Store.empty)
          0 (bulk "s" :: [bulk "x"])).2 =
        engine.Store.insert (bulk "s") ⟨bulk "str", 0, none⟩ engine.Store.empty) ∧
    ((engine.do_command
          (engine.Store.insert (bulk "s") ⟨bulk "str", 0, none⟩ engine.Store.empty)
          0 (Object.Array [bulk "FOO"])).1 = Object.Error (strBytes "unknown command") ∧
      (engine.do_command
          (engine.Store.insert (bulk "s") ⟨bulk "str", 0, none⟩ engine.Store.empty)
          0 (Object.Array [bulk "FOO"])).2 =
        engine.Store.insert (bulk "s") ⟨bulk "str", 0, none⟩ engine.Store.empty) := by
  have hclean : ∀ q e,
      (engine.Store.insert (bulk "s") ⟨bulk "str", 0, none⟩ engine.Store.empty) q = some e →
      ∀ items, e.value = Object.Array items → ∀ msg, Object.Error msg ∉ items := by
    intro q e hq items hv msg hmem
    by_cases hqk : q = bulk "s"
    · rw [hqk] at hq
      simp [engine.Store.insert] at hq
      rw [← hq] at hv
      simp [bulk] at hv
    · simp [engine.Store.insert, hqk, engine.Store.empty] at hq
  have h := error_replies_leave_store_unchanged
    (engine.Store.insert (bulk "s") ⟨bulk "str", 0, none⟩ engine.Store.empty) 0
  have ha := h.1 (bulk "s") ⟨bulk "str", 0, none⟩ [bulk "x"] (by decide)
    (fun items hv => by simp [bulk] at hv) (by decide)
  have hb := h.2 hclean (Object.Array [bulk "FOO"]) (strBytes "unknown command") rfl
  exact ⟨⟨by decide, by decide, ha.1, ha.2.1⟩, ⟨rfl, hb⟩⟩

/-- C9 counterexample: decoding at an exhausted byte source positioned
between objects does NOT yield a third, non-error "clean end-of-stream"
outcome: `deserialize_object` has only two outcomes (an Object or an
error), and at end of stream it returns the decode error
`unexpected end of state`. -/
theorem eof_at_boundary_is_error :
    resp.deserialize_object 1 [] = Except.error "unexpected end of state" := by
  simp [resp.deserialize_object]

/-- C9 (amended): one decode call yields either a fully parsed Object
or an error; exhaustion at an object boundary produces the particular
error `unexpected end of state` (distinguishable only by its message,
not as a separate outcome).  The zero-byte-read behavior of the claim
does hold for `ReadState::current`: once `can_read_more` is false and
the buffer is spent, `current` reports "no byte available" (`none`)
rather than an error and leaves the state untouched; and a read that
returns zero bytes (empty chunk or exhausted source) makes `current`
report `none` and clears `can_read_more`. -/
theorem decoder_end_of_stream :
    (∀ fuel, resp.deserialize_object (fuel + 1) [] =
      Except.error "unexpected end of state") ∧
    (∀ (s : resp.ReadState) (stream : List (List Nat)),
      s.can_read_more = false → s.buffer.length ≤ s.offset →
      resp.ReadState.current s stream = (none, s, stream)) ∧
    (∀ (s : resp.ReadState) (stream rest : List (List Nat)),
      s.buffer.length ≤ s.offset → s.can_read_more = true →
      (stream = [] ∨ stream = [] :: rest) →
      (resp.ReadState.current s stream).1 = none ∧
      ((resp.ReadState.current s stream).2.1).can_read_more = false) := by
  refine ⟨?_, ?_, ?_⟩
  · intro fuel
    simp [resp.deserialize_object]
  · intro s stream h1 h2
    unfold resp.ReadState.current
    rw [dif_neg (by omega)]
    rw [if_neg (by simp [h1])]
  · intro s stream rest h2 h3 hstream
    rcases hstream with rfl | rfl
    · unfold resp.ReadState.current
      rw [dif_neg (by omega), if_pos (by simp [h3])]
      exact ⟨rfl, rfl⟩
    · unfold resp.ReadState.current
      rw [dif_neg (by omega), if_pos (by simp [h3])]
      exact ⟨rfl, rfl⟩

theorem decoder_end_of_stream_witness :
    resp.deserialize_object 3 [] = Except.error "unexpected end of state" ∧
    ((resp.ReadState.mk [] 0 false).can_read_more = false ∧
      (resp.ReadState.mk [] 0 false).buffer.length ≤ (resp.ReadState.mk [] 0 false).offset ∧
      resp.ReadState.current (resp.ReadState.mk [] 0 false) [[13, 10]] =
        (none, resp.ReadState.mk [] 0 false, [[13, 10]])) ∧
    (resp.ReadState.new.buffer.length ≤ resp.ReadState.new.offset ∧
      resp.ReadState.new.can_read_more = true ∧
      (resp.ReadState.current resp.ReadState.new []).1 = none ∧
      ((resp.ReadState.current resp.ReadState.new []).2.1).can_read_more = false) :=
  ⟨decoder_end_of_stream.1 2,
   ⟨rfl, by decide,
    decoder_end_of_stream.2.1 (resp.ReadState.mk [] 0 false) [[13, 10]] rfl (by decide)⟩,
   ⟨by decide, rfl,
    decoder_end_of_stream.2.2 resp.ReadState.new [] [] (by decide) rfl (Or.inl rfl)⟩⟩

/-! ## Codec round-trip (C1) -/

theorem natToDigitsAux_eq (n : Nat) : ∀ acc,
    natToDigitsAux n acc = (Nat.digits 10 n).reverse ++ acc := by
  induction n using Nat.strong_induction_on with
  | _ n ih =>
      intro acc
      match n with
      | 0 => simp [natToDigitsAux]
      | m + 1 =>
          rw [natToDigitsAux]
          rw [ih ((m + 1) / 10) (by omega)]
          rw [Nat.digits_def' (by norm_num : (1 : Nat) < 10) (Nat.succ_pos m)]
          simp

theorem natToDigits_digits_reverse (n : Nat) (h : n ≠ 0) :
    natToDigits n = (Nat.digits 10 n).reverse := by
  rw [natToDigits, if_neg h, natToDigitsAux_eq]
  simp

theorem natToDigits_lt_ten (n : Nat) : ∀ b ∈ natToDigits n, b < 10 := by
  intro b hb
  by_cases h : n = 0
  · subst h; simp [natToDigits] at hb; omega
  · rw [natToDigits_digits_reverse n h] at hb
    simp at hb
    exact Nat.digits_lt_base (by norm_num) hb

theorem natToDigits_ne_nil (n : Nat) : natToDigits n ≠ [] := by
  by_cases h : n = 0
  · subst h; simp [natToDigits]
  · rw [natToDigits_digits_reverse n h]
    simp [Nat.digits_ne_nil_iff_ne_zero, h]

theorem foldl_reverse_digits (L : List Nat) :
    L.reverse.foldl (fun x d => 10 * x + d) 0 = Nat.ofDigits 10 L := by
  induction L with
  | nil => simp [Nat.ofDigits]
  | cons d L ih =>
      rw [List.reverse_cons, List.foldl_append]
      simp [Nat.ofDigits_cons, ih]
      ring

theorem digitsVal_natToDigits (n : Nat) :
    (natToDigits n).foldl (fun x d => 10 * x + d) 0 = n := by
  by_cases h : n = 0
  · subst h; simp [natToDigits]
  · rw [natToDigits_digits_reverse n h, foldl_reverse_digits, Nat.ofDigits_digits]

theorem digitsVal_natBytes (n : Nat) : digitsVal (natBytes n) = n := by
  rw [digitsVal, natBytes, List.foldl_map]
  simp only [Nat.add_sub_cancel]
  exact digitsVal_natToDigits n

theorem natBytes_is_digit (n : Nat) : ∀ b ∈ natBytes n, is_digit b = true := by
  intro b hb
  rw [natBytes] at hb
  simp at hb
  obtain ⟨d, hd, rfl⟩ := hb
  have := natToDigits_lt_ten n d hd
  simp [is_digit]
  omega

theorem natBytes_ne_nil (n : Nat) : natBytes n ≠ [] := by
  rw [natBytes]
  simp [natToDigits_ne_nil]

theorem read_digits_digits (ds rest : List Nat) (h : ∀ b ∈ ds, is_digit b = true) :
    resp.read_digits (ds ++ 13 :: rest) = (ds, 13 :: rest) := by
  induction ds with
  | nil => simp [resp.read_digits, is_digit]
  | cons d ds ih =>
      have hd := h d (by simp)
      simp [resp.read_digits, hd, ih (fun b hb => h b (by simp [hb]))]

theorem parse_u32_natBytes (n : Nat) (h : n < 2 ^ 32) :
    resp.parse_u32 (natBytes n) = some n := by
  have hall : (natBytes n).all (fun b => is_digit b) = true := by
    rw [List.all_eq_true]
    intro b hb
    exact natBytes_is_digit n b hb
  rw [resp.parse_u32, if_neg (natBytes_ne_nil n), digitsVal_natBytes, if_pos]
  simp [hall]
  omega

theorem parse_i64_natBytes (n : Nat) (h : n ≤ 2 ^ 63 - 1) :
    resp.parse_i64 (natBytes n) = some (n : Int) := by
  have hall : (natBytes n).all (fun b => is_digit b) = true := by
    rw [List.all_eq_true]
    intro b hb
    exact natBytes_is_digit n b hb
  rw [resp.parse_i64, if_neg (natBytes_ne_nil n), digitsVal_natBytes, if_pos]
  simp [hall]
  omega

theorem expect_delimiter_crlf (rest : List Nat) :
    resp.expect_delimiter (13 :: 10 :: rest) = Except.ok rest := rfl

theorem read_body_append (s rest : List Nat) :
    resp.read_body s.length (s ++ rest) = Except.ok (s, rest) := by
  induction s with
  | nil => rfl
  | cons b s ih => simp [resp.read_body, ih]

theorem deserialize_integer_roundtrip (i : Int) (rest : List Nat)
    (h : i.natAbs ≤ 2 ^ 63 - 1) :
    resp.deserialize_integer (serialize (Object.Integer i) ++ rest) =
      Except.ok (Object.Integer i, rest) := by
  by_cases hneg : i < 0
  · have h1 := read_digits_digits (natBytes i.natAbs) (10 :: rest)
      (natBytes_is_digit i.natAbs)
    have h2 := parse_i64_natBytes i.natAbs h
    have h3 : -((i.natAbs : Nat) : Int) = i := by omega
    have h4 : -|i| = i := by simp [abs_of_neg hneg]
    simp [serialize, intBytes, hneg, resp.deserialize_integer, h1, h2,
      expect_delimiter_crlf, h3, h4]
  · obtain ⟨d, ds, hds⟩ := List.exists_cons_of_ne_nil (natBytes_ne_nil i.toNat)
    have hd : is_digit d = true := natBytes_is_digit i.toNat d (by rw [hds]; simp)
    have hd2 : 48 ≤ d ∧ d ≤ 57 := by simpa [is_digit] using hd
    have h1 := read_digits_digits (d :: ds) (10 :: rest)
      (by rw [← hds]; exact natBytes_is_digit i.toNat)
    simp only [List.cons_append] at h1
    have h2 : resp.parse_i64 (d :: ds) = some ((i.toNat : Nat) : Int) := by
      rw [← hds]
      exact parse_i64_natBytes i.toNat (by omega)
    have h3 : ((i.toNat : Nat) : Int) = i := by omega
    simp [serialize, intBytes, hneg, hds, resp.deserialize_integer, h1, h2,
      expect_delimiter_crlf, h3, show d ≠ 43 by omega, show d ≠ 45 by omega]

theorem deserialize_bulk_string_roundtrip (s : List Nat) (rest : List Nat)
    (h : s.length < 2 ^ 32) :
    resp.deserialize_bulk_string (serialize (Object.BulkString (some s)) ++ rest) =
      Except.ok (Object.BulkString (some s), rest) := by
  have h1 := read_digits_digits (natBytes s.length) (10 :: (s ++ 13 :: 10 :: rest))
    (natBytes_is_digit s.length)
  have h2 := parse_u32_natBytes s.length h
  have h3 := read_body_append s (13 :: 10 :: rest)
  simp [serialize, resp.deserialize_bulk_string, h1, h2, h3, expect_delimiter_crlf]

theorem decodeFuel_pos (o : Object) : 1 ≤ decodeFuel o := by
  cases o <;> simp [decodeFuel]

theorem deserialize_elements_roundtrip (fuel : Nat)
    (hobj : ∀ o, decodable o = true → decodeFuel o ≤ fuel → ∀ rest,
      resp.deserialize_object fuel (serialize o ++ rest) = Except.ok (o, rest)) :
    ∀ os, decodableList os = true → decodeFuelList os ≤ fuel → ∀ rest,
      resp.deserialize_elements fuel os.length (serializeList os ++ rest) =
        Except.ok (os, rest) := by
  intro os
  induction os with
  | nil =>
      intro _ _ rest
      simp [serializeList, resp.deserialize_elements]
  | cons o os ih =>
      intro hdec hfuel rest
      rw [decodableList, Bool.and_eq_true] at hdec
      rw [decodeFuelList] at hfuel
      have hf1 : decodeFuel o ≤ fuel := le_trans (le_max_left _ _) hfuel
      have hf2 : decodeFuelList os ≤ fuel := le_trans (le_max_right _ _) hfuel
      have h1 := hobj o hdec.1 hf1 (serializeList os ++ rest)
      have h2 := ih hdec.2 hf2 rest
      simp [serializeList, resp.deserialize_elements, h1, h2]

theorem deserialize_object_roundtrip : ∀ fuel o, decodable o = true →
    decodeFuel o ≤ fuel → ∀ rest,
    resp.deserialize_object fuel (serialize o ++ rest) = Except.ok (o, rest) := by
  intro fuel
  induction fuel with
  | zero =>
      intro o hdec hfuel rest
      have := decodeFuel_pos o
      omega
  | succ fuel ih =>
      intro o hdec hfuel rest
      cases o with
      | Error m => simp [decodable] at hdec
      | SimpleString s => simp [decodable] at hdec
      | BulkString os =>
          cases os with
          | none => simp [decodable] at hdec
          | some s =>
              have hlen : s.length < 2 ^ 32 := by simpa [decodable] using hdec
              have hb := deserialize_bulk_string_roundtrip s rest hlen
              simp only [serialize, List.cons_append, List.append_assoc,
                List.nil_append] at hb ⊢
              simp [resp.deserialize_object, hb]
      | Integer i =>
          have habs : i.natAbs ≤ 2 ^ 63 - 1 := by simpa [decodable] using hdec
          have hb := deserialize_integer_roundtrip i rest habs
          simp only [serialize, List.cons_append, List.append_assoc,
            List.nil_append] at hb ⊢
          simp [resp.deserialize_object, hb]
      | Array items =>
          have hdec2 : items.length < 2 ^ 32 ∧ decodableList items = true := by
            simpa [decodable, Bool.and_eq_true] using hdec
          have hfl : decodeFuelList items ≤ fuel := by
            simp only [decodeFuel] at hfuel
            omega
          have h1 := read_digits_digits (natBytes items.length)
            (10 :: (serializeList items ++ rest)) (natBytes_is_digit items.length)
          have h2 := parse_u32_natBytes items.length hdec2.1
          have h3 := deserialize_elements_roundtrip fuel ih items hdec2.2 hfl rest
          simp [serialize, resp.deserialize_object, h1, h2, expect_delimiter_crlf, h3]

/-- C1 (amended): the codec round-trips exactly on the decodable
fragment of `Object`: objects built from `Integer` (magnitude within
`i64`), non-null `BulkString` and `Array` (lengths within `u32`), with
enough fuel for the nesting depth.  The round trip FAILS for
`SimpleString`, `Error` and the null `BulkString` — the decoder only
recognizes the `$`, `*`, `:` tags and has no null-bulk support — see
the counterexample. -/
theorem codec_roundtrip_decodable (o : Object) (fuel : Nat)
    (hdec : decodable o = true) (hfuel : decodeFuel o ≤ fuel) :
    resp.deserialize_object fuel (serialize o) = Except.ok (o, []) := by
  have h := deserialize_object_roundtrip fuel o hdec hfuel []
  simpa using h

/-- C1 counterexample: the claim "this holds for every variant of
Object, including SimpleString, Error, and the null BulkString" is
false.  Serializing `SimpleString "PONG"` yields `+PONG\r\n`, whose
tag `+` the decoder rejects; an `Error` serializes to `-oops\r\n`,
rejected the same way; the null bulk string serializes to `$-1\r\n`
and the decoder has no null-bulk case, so its length parse fails. -/
theorem codec_roundtrip_counterexample :
    resp.deserialize_object 4 (serialize (Object.SimpleString (strBytes "PONG"))) =
      Except.error "byte is not a data type" ∧
    resp.deserialize_object 4 (serialize (Object.Error (strBytes "oops"))) =
      Except.error "byte is not a data type" ∧
    resp.deserialize_object 4 (serialize (Object.BulkString none)) =
      Except.error "couldn't parse as an unsigned 32 bit integer" := by
  refine ⟨?_, ?_, ?_⟩ <;>
    simp [serialize, resp.deserialize_object, resp.deserialize_bulk_string,
      resp.read_digits, resp.parse_u32, is_digit, strBytes]

theorem codec_roundtrip_decodable_witness :
    decodable (Object.Array [Object.Integer (-5),
      Object.BulkString (some (strBytes "hi"))]) = true ∧
    decodeFuel (Object.Array [Object.Integer (-5),
      Object.BulkString (some (strBytes "hi"))]) ≤ 2 ∧
    resp.deserialize_object 2
        (serialize (Object.Array [Object.Integer (-5),
          Object.BulkString (some (strBytes "hi"))])) =
      Except.ok (Object.Array [Object.Integer (-5),
        Object.BulkString (some (strBytes "hi"))], []) :=
  ⟨by norm_num [decodable, decodableList, strBytes],
   by norm_num [decodeFuel, decodeFuelList],
   codec_roundtrip_decodable _ 2 (by norm_num [decodable, decodableList, strBytes])
     (by norm_num [decodeFuel, decodeFuelList])⟩

end Redis
